import Mathlib

/-!
Verification development for the directory-flattening engine
`src/Process/Flat/flat.py` of the RemakeEngineTools repository.

The Python module is shallowly embedded:

* module-level configuration globals (`SANITIZATION_RULES`,
  `FLATTENING_SEPARATOR`, `VERIFY_HASH`, `ACTION`) become explicit
  parameters;
* the filesystem tree walked by `process_source_directory` becomes an
  inductive tree of named files and directories, listed in `os.listdir`
  order;
* Python's `re.sub` is modelled by an executable regular-expression
  engine over the pattern subset described at `compileRE`; a pattern the
  parser rejects plays the role of a pattern on which `re` raises
  `re.error`;
* the thread pool is modelled by the list of task results in completion
  order (`as_completed_check`); file transfers performed by worker
  threads are abstracted by an oracle giving each file's success, and
  `process_file` itself is modelled over an association-list filesystem
  with an explicit "bytes actually landing on disk" fault parameter;
* the unbounded Python recursion of `process_source_directory` is given
  an explicit fuel argument; every quoted result supplies fuel larger
  than the tree depth.
-/

namespace Flat

/-- One sanitization rule, as loaded from the JSON rules file:
`pattern`, `replacement`, `is_regex` (flat.py lines 77-98). -/
structure Rule where
  pattern : String
  replacement : String
  isRegex : Bool
  deriving DecidableEq

/-- Regular expressions: the subset of Python `re` syntax modelled here
(literal characters, `\c` escapes taken literally, `.`, grouping,
alternation, and the quantifiers `*`, `+`, `?`). -/
inductive RE where
  | empty
  | eps
  | chr (c : Char)
  | dot
  | seq (a b : RE)
  | alt (a b : RE)
  | star (a : RE)
  deriving DecidableEq

/-- Does the regular expression accept the empty string? -/
def RE.nullable : RE → Bool
  | .empty => false
  | .eps => true
  | .chr _ => false
  | .dot => false
  | .seq a b => a.nullable && b.nullable
  | .alt a b => a.nullable || b.nullable
  | .star _ => true

/-- Brzozowski derivative of a regular expression by one character. -/
def RE.deriv : RE → Char → RE
  | .empty, _ => .empty
  | .eps, _ => .empty
  | .chr a, c => if a = c then .eps else .empty
  | .dot, _ => .eps
  | .seq a b, c =>
      if a.nullable then .alt (.seq (a.deriv c) b) (b.deriv c)
      else .seq (a.deriv c) b
  | .alt a b, c => .alt (a.deriv c) (b.deriv c)
  | .star a, c => .seq (a.deriv c) (.star a)

/-- The regular expression accepts exactly the whole character list. -/
def RE.accepts (r : RE) (s : List Char) : Bool :=
  (s.foldl RE.deriv r).nullable

/-- Length of the longest prefix of `s` accepted by `r`
(including the empty prefix), or `none` when no prefix is accepted. -/
def longestMatch (r : RE) (s : List Char) : Option Nat :=
  (List.range (s.length + 1)).foldl
    (fun best k => if r.accepts (s.take k) then some k else best) none

/-- `r` matches at some position inside `s` (possibly an empty match). -/
def matchesIn (r : RE) : List Char → Bool
  | [] => r.nullable
  | c :: t => (longestMatch r (c :: t)).isSome || matchesIn r t

/-- Characters that are not plain literals in the modelled pattern
subset.  `[`, `]`, `^`, `$` and the brace characters are rejected by the
parser rather than being silently given non-Python meaning. -/
def isMeta (c : Char) : Bool :=
  c == '(' || c == ')' || c == '|' || c == '*' || c == '+' || c == '?' ||
  c == '\\' || c == '[' || c == ']' || c == '^' || c == '$' ||
  c == Char.ofNat 123 || c == Char.ofNat 125

mutual

/-- Parse an alternation (`seq ('|' seq)*`).  Fuel-indexed recursive
descent; each parser returns the parsed expression and the unconsumed
remainder, or `none` on a malformed pattern. -/
def parseAlt : Nat → List Char → Option (RE × List Char)
  | 0, _ => none
  | f + 1, s =>
    match parseSeq f s with
    | none => none
    | some (r, rest) => parseAltRest f r rest

/-- Parse the remaining `('|' seq)*` branches of an alternation. -/
def parseAltRest : Nat → RE → List Char → Option (RE × List Char)
  | 0, _, _ => none
  | f + 1, r, s =>
    match s with
    | '|' :: rest =>
      match parseSeq f rest with
      | none => none
      | some (r2, rest2) => parseAltRest f (RE.alt r r2) rest2
    | _ => some (r, s)

/-- Parse a (possibly empty) sequence of quantified atoms. -/
def parseSeq : Nat → List Char → Option (RE × List Char)
  | 0, _ => none
  | f + 1, s =>
    match parseAtomPost f s with
    | none => some (RE.eps, s)
    | some (a, rest) =>
      match parseSeq f rest with
      | none => none
      | some (b, rest2) => some (RE.seq a b, rest2)

/-- Parse one atom followed by at most one quantifier. -/
def parseAtomPost : Nat → List Char → Option (RE × List Char)
  | 0, _ => none
  | f + 1, s =>
    match parseAtom f s with
    | none => none
    | some (a, rest) =>
      match rest with
      | '*' :: r2 => some (RE.star a, r2)
      | '+' :: r2 => some (RE.seq a (RE.star a), r2)
      | '?' :: r2 => some (RE.alt a RE.eps, r2)
      | _ => some (a, rest)

/-- Parse a single atom: a group, `.`, an escaped character, or a
literal non-metacharacter. -/
def parseAtom : Nat → List Char → Option (RE × List Char)
  | 0, _ => none
  | f + 1, s =>
    match s with
    | [] => none
    | '(' :: rest =>
      match parseAlt f rest with
      | none => none
      | some (r, rest2) =>
        match rest2 with
        | ')' :: rest3 => some (r, rest3)
        | _ => none
    | '.' :: rest => some (RE.dot, rest)
    | '\\' :: c :: rest => some (RE.chr c, rest)
    | '\\' :: [] => none
    | c :: rest => if isMeta c then none else some (RE.chr c, rest)

end

/-- Compile a pattern string.  `none` models a pattern on which Python's
`re` raises `re.error` (unbalanced group, dangling quantifier, trailing
backslash, or syntax outside the modelled subset). -/
def compileRE (p : String) : Option RE :=
  match parseAlt (8 * (p.data.length + 1)) p.data with
  | some (r, []) => some r
  | _ => none

/-- Global substitution of all leftmost non-overlapping matches of `r`
by `repl`, scanning left to right; an empty match contributes the
replacement and advances one character, as `re.sub` does.  Fuel-indexed;
`re_sub` supplies fuel equal to the input length, which each step
consumes one character of. -/
def reSubF (r : RE) (repl : List Char) : Nat → List Char → List Char
  | _, [] => if r.nullable then repl else []
  | 0, s => s
  | f + 1, c :: t =>
    match longestMatch r (c :: t) with
    | some (k + 1) => repl ++ reSubF r repl f (t.drop k)
    | some 0 => repl ++ c :: reSubF r repl f t
    | none => c :: reSubF r repl f t

/-- Model of `re.sub(pattern, replacement, s)` with the replacement
taken as literal text (template escapes are outside the model; flat.py's
rule files use literal replacements). -/
def re_sub (r : RE) (repl s : List Char) : List Char :=
  reSubF r repl s.length s

/-- Fuel-indexed worker for `str_replace`; each step consumes at least
one character of the input. -/
def strReplaceF (pat repl : List Char) : Nat → List Char → List Char
  | _, [] => []
  | 0, s => s
  | f + 1, c :: t =>
    if pat.isPrefixOf (c :: t) && !pat.isEmpty then
      repl ++ strReplaceF pat repl f (t.drop (pat.length - 1))
    else
      c :: strReplaceF pat repl f t

/-- Model of Python `str.replace`: replace every non-overlapping
occurrence of `pat`, left to right.  flat.py only calls it with a
non-empty pattern (line 88 skips empty patterns). -/
def str_replace (s pat repl : List Char) : List Char :=
  strReplaceF pat repl s.length s

/-- `pat` occurs as a contiguous substring of `s`. -/
def containsSub (pat : List Char) : List Char → Bool
  | [] => pat.isPrefixOf []
  | c :: t => pat.isPrefixOf (c :: t) || containsSub pat t

/-- Apply one sanitization rule to a name: the body of the loop of
`sanitize_name` (flat.py lines 77-97).  A rule with an empty pattern is
skipped; a regex rule whose pattern fails to compile leaves the name
unchanged, modelling the `except re.error` handler (lines 94-95). -/
def apply_rule (rule : Rule) (name : String) : String :=
  if rule.isRegex then
    if rule.pattern = "" then name
    else
      match compileRE rule.pattern with
      | none => name
      | some r => String.mk (re_sub r rule.replacement.data name.data)
  else
    if rule.pattern = "" then name
    else String.mk (str_replace name.data rule.pattern.data rule.replacement.data)

/-- `sanitize_name` (flat.py lines 68-98): apply the ordered rule list
to the cumulative result of the previous rules.  The module-global
`SANITIZATION_RULES` is passed explicitly. -/
def sanitize_name (rules : List Rule) (name : String) : String :=
  rules.foldl (fun n r => apply_rule r n) name

/-- A path, as the list of its components with the base name first
(so `os.path.join(p, name)` is `name :: p` and `os.path.basename p` is
`p.headD ""`).  Destination paths are kept relative to the destination
root, which is the empty list. -/
abbrev Path := List String

/-- One entry of a source directory listing: a file or a subdirectory
with its own listing, in `os.listdir` order. -/
inductive Entry where
  | file (name : String)
  | dir (name : String) (children : List Entry)

/-- `os.path.isdir` for a listing entry. -/
def Entry.isDir : Entry → Bool
  | .dir _ _ => true
  | .file _ => false

/-- Base name of a listing entry. -/
def Entry.name : Entry → String
  | .dir n _ => n
  | .file n => n

/-- Listing of a directory entry (empty for a file). -/
def Entry.children : Entry → List Entry
  | .dir _ cs => cs
  | .file _ => []

/-- The `for future in concurrent.futures.as_completed(futures)` loop of
flat.py lines 207-210, over the task results in completion order.  It
consumes results one by one; at the first failing result it returns
immediately.  The first component is the returned aggregate, the second
the number of futures whose completion had been observed on return. -/
def as_completed_check : List Bool → Bool × Nat
  | [] => (true, 0)
  | r :: rs =>
    if r then
      let p := as_completed_check rs
      (p.1, p.2 + 1)
    else (false, 1)

/-- Observable outcome of one `process_source_directory` call:
the boolean it returns, the source directories it entered, the
destination directories it materialized, the destination file paths of
the transfer tasks it submitted, and (ghost trace) the new accumulated
names it computed at collapse steps. -/
structure TraceOut where
  ok : Bool
  visited : List Path
  createdDirs : List Path
  transfers : List Path
  collapsedNames : List String
  deriving DecidableEq

/-- The sequential sibling loop of flat.py lines 213-215: process each
subdirectory in listing order, stopping at the first failure.  The
recursive call into one subdirectory is abstracted as `rec`. -/
def process_child_dirs (rec : Entry → TraceOut) : List Entry → TraceOut
  | [] => ⟨true, [], [], [], []⟩
  | d :: rest =>
    let r := rec d
    if r.ok then
      let r2 := process_child_dirs rec rest
      ⟨r2.ok, r.visited ++ r2.visited, r.createdDirs ++ r2.createdDirs,
        r.transfers ++ r2.transfers, r.collapsedNames ++ r2.collapsedNames⟩
    else r

/-- Run configuration: the module globals `SANITIZATION_RULES` and
`FLATTENING_SEPARATOR` made explicit. -/
structure Config where
  rules : List Rule
  separator : String

/-- Lines 149-150 of flat.py: at frame entry a non-empty accumulated
name is sanitized; an empty one is left alone. -/
def entry_accumulated (rules : List Rule) (acc : String) : String :=
  if acc = "" then acc else sanitize_name rules acc

/-- Lines 176-177 of flat.py: the final directory name of a
branching/terminal frame, computed from the entry-sanitized accumulated
name and the source base name. -/
def final_directory_name (rules : List Rule) (acc base : String) : String :=
  sanitize_name rules (if acc = "" then base else acc)

/-- `process_source_directory` (flat.py lines 147-217).

`fileOk` gives the result of `process_file` for each submitted source
file path (worker threads abstracted; the traversal only consumes the
booleans).  `fuel` bounds the recursion depth; every result quoted in a
theorem supplies fuel exceeding the tree depth, and the fuel-exhaustion
sentinel reports failure.

The listing is split into `child_dirs` and `child_files` preserving
listing order (lines 152-159).  Since every `Entry` is a file or a
directory, the flattening condition `len(child_dirs) == 1 and not
child_files` (line 165) holds exactly when the listing is a single
directory entry, which the match expresses.  Directory creation (lines
186-189) is modelled as always succeeding; transfer tasks are all
submitted before any result is checked (lines 195-210), so `transfers`
records every child file of a materialized level even when some fail. -/
def process_source_directory (fuel : Nat) (cfg : Config) (fileOk : Path → Bool)
    (source_path : Path) (children : List Entry)
    (destination_parent_path : Path) (accumulated_flattened_name : String)
    (original_root : Path) : TraceOut :=
  match fuel with
  | 0 => ⟨false, [], [], [], []⟩
  | fuel + 1 =>
    let acc := entry_accumulated cfg.rules accumulated_flattened_name
    let child_dirs := children.filter Entry.isDir
    let child_files := children.filter fun e => !e.isDir
    match child_dirs, child_files with
    | [d], [] =>
      let source_base_name := source_path.headD ""
      let child_base_name := d.name
      let new_accumulated_name :=
        (if acc = "" then source_base_name else acc) ++ cfg.separator ++ child_base_name
      let sub := process_source_directory fuel cfg fileOk (child_base_name :: source_path)
        d.children destination_parent_path new_accumulated_name original_root
      ⟨sub.ok, source_path :: sub.visited, sub.createdDirs, sub.transfers,
        new_accumulated_name :: sub.collapsedNames⟩
    | _, _ =>
      let final_dir_name := final_directory_name cfg.rules acc (source_path.headD "")
      let level : Path → List Path → TraceOut := fun final_dest created =>
        let file_results := child_files.map fun e => fileOk (e.name :: source_path)
        let transfers := child_files.map fun e => e.name :: final_dest
        if (as_completed_check file_results).1 = false then
          ⟨false, [source_path], created, transfers, []⟩
        else
          let rd := process_child_dirs
            (fun d => process_source_directory fuel cfg fileOk (d.name :: source_path)
              d.children final_dest "" original_root) child_dirs
          ⟨rd.ok, source_path :: rd.visited, created ++ rd.createdDirs,
            transfers ++ rd.transfers, rd.collapsedNames⟩
      if source_path = original_root ∧ acc = "" then
        level destination_parent_path []
      else if final_dir_name = "" then
        ⟨true, [source_path], [], [], []⟩
      else
        level (final_dir_name :: destination_parent_path)
          [final_dir_name :: destination_parent_path]

/-- The top-level call made by `main` (flat.py line 299): both the
destination parent and the original root are the roots themselves, with
an empty initial accumulated name. -/
def flatten_run (fuel : Nat) (cfg : Config) (fileOk : Path → Bool)
    (rootName : String) (rootChildren : List Entry) : TraceOut :=
  process_source_directory fuel cfg fileOk [rootName] rootChildren [] "" [rootName]

/-- The collapse-step name formula as the specification words it
(spec section 4.4 step 2 and claim C2):
`sanitize(accumulatedName or baseName(sourcePath)) + separator +
baseName(singleChildDir)`.  Kept separate from the embedding of the
code so the two can be compared. -/
def spec_collapse_name (rules : List Rule) (sep acc base child : String) : String :=
  sanitize_name rules (if acc = "" then base else acc) ++ sep ++ child

/-- Filesystem contents for the `process_file` model: an association
list from paths to file contents, a natural number standing for the
byte string. -/
abbrev FS := List (Path × Nat)

/-- First-match lookup. -/
def FS.lookup : FS → Path → Option Nat
  | [], _ => none
  | (p, v) :: rest, q => if p = q then some v else FS.lookup rest q

/-- Remove every binding of a path. -/
def FS.erase : FS → Path → FS
  | [], _ => []
  | (p, v) :: rest, q => if p = q then FS.erase rest q else (p, v) :: FS.erase rest q

/-- Create or overwrite one file. -/
def FS.insert (fs : FS) (p : Path) (v : Nat) : FS :=
  (p, v) :: FS.erase fs p

/-- The `--action` choice (flat.py line 230). -/
inductive Action where
  | copy
  | move
  deriving DecidableEq

/-- `process_file` (flat.py lines 101-143) over the filesystem model.

`h` is the content hash (SHA-256 abstracted as a function of the
content); `written` is the content actually landing on disk at the
destination, the fault parameter that makes corruption — and hence the
hash-mismatch branches — expressible.  A missing source makes the
underlying read or move raise, which the handler at lines 141-143 turns
into `False` with the filesystem unchanged.

For `copy` with verification, the source hash is taken from the single
read pass of `copy_and_hash` (line 111), so it is `h` of the source
content; the destination is then independently re-hashed (line 113),
giving `h written`.  For `move` with verification the source hash is
computed before the move (line 125) and the destination re-hashed after
it (line 131).  On mismatch the code returns `False` (lines 116, 134)
without touching the destination again. -/
def process_file (action : Action) (verify_hash : Bool) (h : Nat → Nat)
    (fs : FS) (file_path destination_file_path : Path) (written : Nat) : FS × Bool :=
  match action with
  | .copy =>
    match FS.lookup fs file_path with
    | none => (fs, false)
    | some c =>
      let fs2 := FS.insert fs destination_file_path written
      if verify_hash then (fs2, h c == h written) else (fs2, true)
  | .move =>
    match FS.lookup fs file_path with
    | none => (fs, false)
    | some c =>
      let fs2 := FS.insert (FS.erase fs file_path) destination_file_path written
      if verify_hash then (fs2, h c == h written) else (fs2, true)


/-- Rebuilding a string from its character data is the identity. -/
theorem string_mk_data (s : String) : String.mk s.data = s := rfl

/-- A non-empty string has non-empty character data. -/
theorem data_ne_nil (p : String) (h : p ≠ "") : p.data ≠ [] := by
  intro hd
  exact h (String.ext hd)

/-- Looking up the erased path gives nothing. -/
theorem FS.lookup_erase_self (fs : FS) (p : Path) :
    FS.lookup (FS.erase fs p) p = none := by
  induction fs with
  | nil => rfl
  | cons e rest ih =>
    obtain ⟨q, v⟩ := e
    by_cases hq : q = p <;> simp [FS.erase, FS.lookup, hq, ih]

/-- Erasing one path does not change the lookup of another. -/
theorem FS.lookup_erase_ne (fs : FS) (p q : Path) (h : p ≠ q) :
    FS.lookup (FS.erase fs p) q = FS.lookup fs q := by
  induction fs with
  | nil => rfl
  | cons e rest ih =>
    obtain ⟨a, v⟩ := e
    by_cases ha : a = p
    · subst ha
      simp [FS.erase, FS.lookup, h, ih]
    · by_cases hb : a = q <;> simp [FS.erase, FS.lookup, ha, hb, ih, Ne.symm h]

/-- Looking up the freshly written path gives the written content. -/
theorem FS.lookup_insert_self (fs : FS) (p : Path) (v : Nat) :
    FS.lookup (FS.insert fs p v) p = some v := by
  simp [FS.insert, FS.lookup]

/-- Writing one path does not change the lookup of another. -/
theorem FS.lookup_insert_ne (fs : FS) (p : Path) (v : Nat) (q : Path) (h : p ≠ q) :
    FS.lookup (FS.insert fs p v) q = FS.lookup fs q := by
  simp only [FS.insert, FS.lookup, if_neg h]
  exact FS.lookup_erase_ne fs p q h

/-- C3, counterexample: the dispatch loop of flat.py lines 207-210 does
not wait for every submitted task.  With two submitted tasks whose
completion order delivers a failing result first, the loop returns after
observing only one of the two completions, so the second task can still
be in flight at return. -/
theorem c3_counterexample :
    as_completed_check [false, true] = (false, 1) ∧
    (as_completed_check [false, true]).2 ≠ [false, true].length := by
  decide

/-- C3, amended: for task results listed in completion order, the
dispatch step returns `false` exactly when some task failed and `true`
when all succeeded; it observes every completion before returning only
in the all-success case, and on failure it returns immediately after the
first failing completion is observed, leaving later-completing tasks
unawaited. -/
theorem c3_amended (rs : List Bool) :
    (as_completed_check rs).1 = rs.all (fun b => b) ∧
    (as_completed_check rs).2 =
      (if rs.all (fun b => b) then rs.length
       else (rs.takeWhile (fun b => b)).length + 1) := by
  induction rs with
  | nil => simp [as_completed_check]
  | cons r rest ih =>
    cases r with
    | false => simp [as_completed_check, List.takeWhile_cons]
    | true =>
      refine ⟨by simp [as_completed_check, ih.1], ?_⟩
      by_cases hall : rest.all (fun b => b) = true <;>
        simp [as_completed_check, ih.2, hall, List.takeWhile_cons]

/-- C5: a verified move computes the source hash before the move; on a
successful outcome the source path no longer exists, the destination
holds the moved bytes, and success is equivalent to the destination hash
matching the pre-move source hash — so a hash mismatch is reported as a
failure.  `h` is the content hash and `written` the bytes that actually
landed at the destination. -/
theorem c5_move_verified (h : Nat → Nat) (fs : FS) (src dst : Path) (written c : Nat)
    (hne : src ≠ dst) (hsrc : FS.lookup fs src = some c) :
    ((process_file .move true h fs src dst written).2 = true ↔ h written = h c) ∧
    FS.lookup (process_file .move true h fs src dst written).1 src = none ∧
    FS.lookup (process_file .move true h fs src dst written).1 dst = some written := by
  have hpf : process_file .move true h fs src dst written =
      (FS.insert (FS.erase fs src) dst written, h c == h written) := by
    simp [process_file, hsrc]
  refine ⟨?_, ?_, ?_⟩
  · rw [hpf]
    simp [@eq_comm Nat (h written)]
  · rw [hpf]
    rw [FS.lookup_insert_ne _ _ _ _ (Ne.symm hne)]
    exact FS.lookup_erase_self fs src
  · rw [hpf]
    exact FS.lookup_insert_self _ _ _

/-- Witness for C5 at a concrete move: file `a` with content `1`, moved
to `b` with intact bytes and the identity as hash. -/
theorem c5_witness :
    ((process_file .move true (fun n => n) [(["a"], 1)] ["a"] ["b"] 1).2 = true ↔
      (1 : Nat) = 1) ∧
    FS.lookup (process_file .move true (fun n => n) [(["a"], 1)] ["a"] ["b"] 1).1 ["a"] = none ∧
    FS.lookup (process_file .move true (fun n => n) [(["a"], 1)] ["a"] ["b"] 1).1 ["b"] = some 1 :=
  c5_move_verified (fun n => n) [(["a"], 1)] ["a"] ["b"] 1 1 (by decide) (by decide)

/-- C7: for either action, a verified transfer that fails on a hash
mismatch reports failure but leaves the destination file in place with
the bytes that were written — no rollback or deletion happens. -/
theorem c7_mismatch_keeps_destination (action : Action) (h : Nat → Nat) (fs : FS)
    (src dst : Path) (written c : Nat)
    (hsrc : FS.lookup fs src = some c) (hmm : h c ≠ h written) :
    (process_file action true h fs src dst written).2 = false ∧
    FS.lookup (process_file action true h fs src dst written).1 dst = some written := by
  cases action <;>
    exact ⟨by simp [process_file, hsrc, hmm],
      by simp only [process_file, hsrc]; exact FS.lookup_insert_self _ _ _⟩

/-- Witness for C7 at a concrete copy: source content `1`, corrupted
destination bytes `2`, identity hash. -/
theorem c7_witness :
    (process_file .copy true (fun n => n) [(["a"], 1)] ["a"] ["b"] 2).2 = false ∧
    FS.lookup (process_file .copy true (fun n => n) [(["a"], 1)] ["a"] ["b"] 2).1 ["b"] =
      some 2 :=
  c7_mismatch_keeps_destination .copy (fun n => n) [(["a"], 1)] ["a"] ["b"] 2 1
    (by decide) (by decide)

/-- A literal pattern that occurs nowhere in the input leaves
`str_replace`'s worker unchanged, at any fuel. -/
theorem strReplaceF_of_not_contains (pat repl : List Char) :
    ∀ (f : Nat) (s : List Char), containsSub pat s = false →
      strReplaceF pat repl f s = s := by
  intro f
  induction f with
  | zero =>
    intro s _
    cases s <;> rfl
  | succ f ih =>
    intro s hs
    cases s with
    | nil => rfl
    | cons c t =>
      rw [containsSub, Bool.or_eq_false_iff] at hs
      rw [strReplaceF, if_neg (by simp [hs.1]), ih t hs.2]

/-- A regular expression that matches nowhere in the input (not even an
empty match) leaves `re_sub`'s worker unchanged, at any fuel. -/
theorem reSubF_of_not_matches (r : RE) (repl : List Char) :
    ∀ (f : Nat) (s : List Char), matchesIn r s = false →
      reSubF r repl f s = s := by
  intro f
  induction f with
  | zero =>
    intro s hs
    cases s with
    | nil =>
      rw [matchesIn] at hs
      simp [reSubF, hs]
    | cons c t => rfl
  | succ f ih =>
    intro s hs
    cases s with
    | nil =>
      rw [matchesIn] at hs
      simp [reSubF, hs]
    | cons c t =>
      rw [matchesIn, Bool.or_eq_false_iff] at hs
      have hnone : longestMatch r (c :: t) = none := by
        cases hl : longestMatch r (c :: t) with
        | none => rfl
        | some k => rw [hl] at hs; simp at hs
      rw [reSubF, hnone, ih t hs.2]

/-- One rule does not fire on a name: the pattern is empty (the rule is
skipped), or a regex pattern fails to compile, or the compiled regex
matches nowhere in the name, or a literal pattern occurs nowhere in the
name.  This is the decidable reading of "the rule's pattern does not
occur in the name". -/
def ruleInert (rule : Rule) (name : String) : Bool :=
  if rule.pattern = "" then true
  else if rule.isRegex then
    match compileRE rule.pattern with
    | none => true
    | some r => !(matchesIn r name.data)
  else !(containsSub rule.pattern.data name.data)

/-- A rule that does not fire leaves the name unchanged. -/
theorem apply_rule_of_inert (rule : Rule) (name : String)
    (h : ruleInert rule name = true) : apply_rule rule name = name := by
  unfold ruleInert at h
  unfold apply_rule
  by_cases hp : rule.pattern = ""
  · simp [hp]
  · rw [if_neg hp] at h
    by_cases hr : rule.isRegex = true
    · rw [if_pos hr] at h
      rw [if_pos hr, if_neg hp]
      cases hc : compileRE rule.pattern with
      | none => rfl
      | some r =>
        rw [hc] at h
        simp only [Bool.not_eq_true'] at h
        simp only [re_sub]
        rw [reSubF_of_not_matches r _ _ _ h, string_mk_data]
    · rw [if_neg hr] at h
      simp only [Bool.not_eq_true'] at h
      rw [if_neg hr, if_neg hp]
      simp only [str_replace]
      rw [strReplaceF_of_not_contains _ _ _ _ h, string_mk_data]

/-- C8: for every name and rule list, if no rule's pattern fires on the
name (empty pattern, uncompilable regex, regex matching nowhere in the
name, or literal pattern occurring nowhere in the name) then
`sanitize_name` is the identity on that name. -/
theorem c8_sanitize_noop (rules : List Rule) (name : String)
    (h : ∀ r ∈ rules, ruleInert r name = true) :
    sanitize_name rules name = name := by
  induction rules with
  | nil => rfl
  | cons r rs ih =>
    have hstep : sanitize_name (r :: rs) name =
        sanitize_name rs (apply_rule r name) := rfl
    rw [hstep, apply_rule_of_inert r name (h r (by simp)),
      ih (fun x hx => h x (by simp [hx]))]

/-- Witness for C8: a literal rule and a regex rule, neither of which
fires on the name `hello`. -/
theorem c8_witness :
    sanitize_name [⟨"x", "y", false⟩, ⟨"a+b", "z", true⟩] "hello" = "hello" :=
  c8_sanitize_noop [⟨"x", "y", false⟩, ⟨"a+b", "z", true⟩] "hello" (by decide)

/-- C6: a regex rule whose pattern does not compile fails alone: the
name passes through that rule unmodified and the remaining rules are
applied in order, so sanitizing with the rule present equals sanitizing
with it removed; the sanitize call itself never aborts (it is a total
function returning through every rule). -/
theorem c6_bad_rule_isolated (pre post : List Rule) (bad : Rule) (name : String)
    (hreg : bad.isRegex = true) (hbad : compileRE bad.pattern = none) :
    sanitize_name (pre ++ bad :: post) name = sanitize_name (pre ++ post) name := by
  have hb : ∀ n, apply_rule bad n = n := by
    intro n
    unfold apply_rule
    rw [if_pos hreg]
    by_cases hp : bad.pattern = ""
    · rw [if_pos hp]
    · rw [if_neg hp, hbad]
  simp only [sanitize_name, List.foldl_append, List.foldl_cons, hb]

/-- Witness for C6: the malformed pattern `(` (unbalanced group, a
`re.error` in Python as well) sandwiched between two literal rules. -/
theorem c6_witness :
    sanitize_name ([⟨"a", "b", false⟩] ++ ⟨"(", "z", true⟩ :: [⟨"c", "d", false⟩]) "abc" =
      sanitize_name ([⟨"a", "b", false⟩] ++ [⟨"c", "d", false⟩]) "abc" :=
  c6_bad_rule_isolated [⟨"a", "b", false⟩] [⟨"c", "d", false⟩] ⟨"(", "z", true⟩ "abc"
    (by decide) (by decide)

/-- C1, counterexample: for the chain `root/A/B/C/file.txt` with
separator `++` and no sanitization rules, the code places the file at
`destination/root++A++B++C/file.txt`, not at
`destination/A++B++C/file.txt` as claimed: the root frame itself
satisfies the collapse condition, so the root's own base name becomes
the first component of the compound name (flat.py line 169 with an empty
accumulated name). -/
theorem c1_counterexample :
    (flatten_run 10 ⟨[], "++"⟩ (fun _ => true) "root"
        [.dir "A" [.dir "B" [.dir "C" [.file "file.txt"]]]]).transfers =
      [["file.txt", "root++A++B++C"]] ∧
    (flatten_run 10 ⟨[], "++"⟩ (fun _ => true) "root"
        [.dir "A" [.dir "B" [.dir "C" [.file "file.txt"]]]]).transfers ≠
      [["file.txt", "A++B++C"]] := by
  decide

/-- C1, amended: flattening `root/A/B/C/file.txt` (the source root and
each of A, B containing exactly one subdirectory and no files, C
containing only the file) with separator `++` produces the single file
at `destination/root++A++B++C/file.txt`, where `root` is the source
root's base name, and the run succeeds. -/
theorem c1_amended :
    (flatten_run 10 ⟨[], "++"⟩ (fun _ => true) "root"
        [.dir "A" [.dir "B" [.dir "C" [.file "file.txt"]]]]).transfers =
      [["file.txt", "root++A++B++C"]] ∧
    (flatten_run 10 ⟨[], "++"⟩ (fun _ => true) "root"
        [.dir "A" [.dir "B" [.dir "C" [.file "file.txt"]]]]).ok = true := by
  decide

/-- C2, counterexample: at a collapse step with an empty accumulated
name, the code carries `root++A` — the source base name is NOT
sanitized before concatenation — whereas the claimed formula
`sanitize(accumulatedName or baseName) + separator + childName` gives
`rot++A` under the rule replacing `oo` by `o`. -/
theorem c2_counterexample :
    (process_source_directory 5 ⟨[⟨"oo", "o", false⟩], "++"⟩ (fun _ => true)
        ["root"] [.dir "A" [.file "f"]] [] "" ["root"]).collapsedNames = ["root++A"] ∧
    "root++A" ≠ spec_collapse_name [⟨"oo", "o", false⟩] "++" "" "root" "A" := by
  decide

/-- C2, amended: in the collapse case (exactly one child directory, no
child files, i.e. the listing is a single directory entry), the new
accumulated name is `X ++ separator ++ childBaseName` where `X` is the
sanitized accumulated name if the incoming accumulated name is non-empty
and its sanitization non-empty, and the UNsanitized source base name
otherwise; the call recurses into the single child carrying that name
and materializes no destination directory for the current level. -/
theorem c2_amended (fuel : Nat) (cfg : Config) (fileOk : Path → Bool)
    (src : Path) (cn : String) (ccs : List Entry) (dest : Path) (acc : String)
    (root : Path) :
    process_source_directory (fuel + 1) cfg fileOk src [.dir cn ccs] dest acc root =
      (let na := (if acc = "" ∨ sanitize_name cfg.rules acc = ""
                  then src.headD "" else sanitize_name cfg.rules acc) ++
        cfg.separator ++ cn
       let sub := process_source_directory fuel cfg fileOk (cn :: src) ccs dest na root
       ⟨sub.ok, src :: sub.visited, sub.createdDirs, sub.transfers,
         na :: sub.collapsedNames⟩) := by
  by_cases h1 : acc = ""
  · simp [process_source_directory, entry_accumulated, h1, Entry.isDir, Entry.name,
      Entry.children, List.filter]
  · by_cases h2 : sanitize_name cfg.rules acc = "" <;>
      simp [process_source_directory, entry_accumulated, h1, h2, Entry.isDir,
        Entry.name, Entry.children, List.filter]

/-- C4: in the sibling loop (flat.py lines 213-215), if every sibling
before `d` succeeds and processing `d` fails, the loop's outcome is the
same as if the later siblings `post` were not present at all — they are
never visited and contribute no visits, directories or transfers — and
the loop reports failure, which the enclosing call returns upward. -/
theorem c4_fail_fast (rec : Entry → TraceOut) (pre : List Entry) (d : Entry)
    (post : List Entry)
    (hpre : ∀ e ∈ pre, (rec e).ok = true) (hd : (rec d).ok = false) :
    process_child_dirs rec (pre ++ d :: post) = process_child_dirs rec (pre ++ [d]) ∧
    (process_child_dirs rec (pre ++ d :: post)).ok = false := by
  induction pre with
  | nil => simp [process_child_dirs, hd]
  | cons e rest ih =>
    have he : (rec e).ok = true := hpre e (by simp)
    have ih2 := ih (fun x hx => hpre x (by simp [hx]))
    have hok2 : (process_child_dirs rec (rest ++ [d])).ok = false := ih2.1 ▸ ih2.2
    simp [process_child_dirs, he, ih2.1, ih2.2, hok2]

/-- Witness for C4: three sibling directories processed by the actual
recursive call of `process_source_directory`; the file in the second
fails, so the third is never visited and the loop reports failure. -/
theorem c4_witness :
    process_child_dirs
        (fun e => process_source_directory 5 ⟨[], "++"⟩
          (fun p => !(p == ["bad", "D2", "root"])) (e.name :: ["root"]) e.children
          [] "" ["root"])
        ([Entry.dir "D1" [.file "a"]] ++
          Entry.dir "D2" [.file "bad"] :: [Entry.dir "D3" [.file "c"]]) =
      process_child_dirs
        (fun e => process_source_directory 5 ⟨[], "++"⟩
          (fun p => !(p == ["bad", "D2", "root"])) (e.name :: ["root"]) e.children
          [] "" ["root"])
        ([Entry.dir "D1" [.file "a"]] ++ [Entry.dir "D2" [.file "bad"]]) ∧
    (process_child_dirs
        (fun e => process_source_directory 5 ⟨[], "++"⟩
          (fun p => !(p == ["bad", "D2", "root"])) (e.name :: ["root"]) e.children
          [] "" ["root"])
        ([Entry.dir "D1" [.file "a"]] ++
          Entry.dir "D2" [.file "bad"] :: [Entry.dir "D3" [.file "c"]])).ok = false :=
  c4_fail_fast _ [Entry.dir "D1" [.file "a"]] (Entry.dir "D2" [.file "bad"])
    [Entry.dir "D3" [.file "c"]] (by decide) (by decide)

/-- C9, counterexample: a branch/terminal frame entered with the
non-empty accumulated name `x`, under the rule deleting `x`: the entry
sanitization empties the name, the code falls back to the source base
name `B`, and the materialized directory is `B` — not
`sanitize(sanitize("x")) = ""` as the claim's equation requires. -/
theorem c9_counterexample :
    (process_source_directory 5 ⟨[⟨"x", "", false⟩], "++"⟩ (fun _ => true)
        ["B", "R"] [.file "f"] [] "x" ["R"]).createdDirs = [["B"]] ∧
    (["B"] : Path) ≠
      sanitize_name [⟨"x", "", false⟩] (sanitize_name [⟨"x", "", false⟩] "x") ::
        ([] : Path) := by
  decide

/-- C9, amended: a branch/terminal frame with a non-empty accumulated
name whose sanitization is also non-empty applies the sanitizer twice —
at entry and again for the final directory name — so the directory it
materializes is named `sanitize(sanitize(accumulatedName))` (provided
that is non-empty, the materialization condition); when the entry
sanitization is empty the code falls back to the source base name
instead. -/
theorem c9_amended (fuel : Nat) (cfg : Config) (fileOk : Path → Bool)
    (src : Path) (children : List Entry) (dest : Path) (acc : String) (root : Path)
    (hacc : acc ≠ "")
    (hs1 : sanitize_name cfg.rules acc ≠ "")
    (hs2 : sanitize_name cfg.rules (sanitize_name cfg.rules acc) ≠ "")
    (hbranch : ¬ ((children.filter Entry.isDir).length = 1 ∧
      (children.filter (fun e => !e.isDir)).length = 0)) :
    (process_source_directory (fuel + 1) cfg fileOk src children dest acc
        root).createdDirs.head? =
      some (sanitize_name cfg.rules (sanitize_name cfg.rules acc) :: dest) := by
  have hea : entry_accumulated cfg.rules acc = sanitize_name cfg.rules acc := by
    simp [entry_accumulated, hacc]
  have hfin : final_directory_name cfg.rules (entry_accumulated cfg.rules acc)
      (src.headD "") = sanitize_name cfg.rules (sanitize_name cfg.rules acc) := by
    rw [hea]
    simp [final_directory_name, hs1]
  simp only [process_source_directory]
  split
  next d heq1 heq2 =>
    exact absurd ⟨by rw [heq1]; rfl, by rw [heq2]; rfl⟩ hbranch
  next =>
    rw [if_neg (fun hc => hs1 (hea.symm.trans hc.2)), hfin, if_neg hs2]
    split
    next => rfl
    next => rfl

/-- Witness for C9 amended: under the rule replacing `aa` by `a`, a
frame entered with accumulated name `aaaa` materializes the directory
`a` (two sanitizations: `aaaa` to `aa` to `a`), exhibiting the
non-idempotent double application. -/
theorem c9_witness :
    (process_source_directory 4 ⟨[⟨"aa", "a", false⟩], "++"⟩ (fun _ => true)
        ["S", "R"] [.file "f"] [] "aaaa" ["R"]).createdDirs.head? =
      some ["a"] := by
  have h := c9_amended 3 ⟨[⟨"aa", "a", false⟩], "++"⟩ (fun _ => true)
    ["S", "R"] [.file "f"] [] "aaaa" ["R"] (by decide) (by decide) (by decide)
    (by decide)
  simpa using h

/-- C10: a non-root branch/terminal frame whose final directory name
sanitizes to the empty string returns success immediately: no transfer
task is submitted, no destination directory is created and no
subdirectory is visited, so the whole subtree is silently omitted while
the caller may still report overall success (flat.py lines 183-185). -/
theorem c10_empty_name_skips (fuel : Nat) (cfg : Config) (fileOk : Path → Bool)
    (src : Path) (children : List Entry) (dest : Path) (acc : String) (root : Path)
    (hbranch : ¬ ((children.filter Entry.isDir).length = 1 ∧
      (children.filter (fun e => !e.isDir)).length = 0))
    (hroot : ¬ (src = root ∧ entry_accumulated cfg.rules acc = ""))
    (hempty : final_directory_name cfg.rules (entry_accumulated cfg.rules acc)
      (src.headD "") = "") :
    process_source_directory (fuel + 1) cfg fileOk src children dest acc root =
      ⟨true, [src], [], [], []⟩ := by
  simp only [process_source_directory]
  split
  next d heq1 heq2 =>
    exact absurd ⟨by rw [heq1]; rfl, by rw [heq2]; rfl⟩ hbranch
  next =>
    rw [if_neg hroot, if_pos hempty]

/-- Witness for C10: the directory `D` (one file, one subdirectory)
whose name the rule deletes; the frame returns success having
transferred nothing and without visiting the subdirectory `S`. -/
theorem c10_witness :
    process_source_directory 4 ⟨[⟨"D", "", false⟩], "++"⟩ (fun _ => true)
        ["D", "root"] [.file "f", .dir "S" [.file "g"]] [] "" ["root"] =
      ⟨true, [["D", "root"]], [], [], []⟩ :=
  c10_empty_name_skips 3 ⟨[⟨"D", "", false⟩], "++"⟩ (fun _ => true)
    ["D", "root"] [.file "f", .dir "S" [.file "g"]] [] "" ["root"]
    (by decide) (by decide) (by decide)

end Flat
